import Mathlib

/-!
Verification development for the file-indexer and search engine
(`main.py`).  The Python source is shallowly embedded: strings are Lean
`String`s (matched as `List Char`), SQLite rows are Lean structures held in
lists, timestamps are integers, fractional size magnitudes are exact
decimals, and filesystem paths are modelled as their segment lists
(`Path.parts`).
The regular-expression searches of the query parser are embedded as
explicit leftmost-match scanners that follow the ordered-alternative,
first-match-wins semantics of Python's `re` module for the concrete
patterns appearing in the source.
-/

namespace IFS

/-! ## Basic character and string helpers -/

/-- Lower-casing a string character by character (Python `str.lower` on the
ASCII queries and names this program handles). -/
def lowerStr (s : String) : String := String.mk (s.data.map Char.toLower)

/-- Whitespace as matched by Python's regex class and `str.split`/`strip`. -/
def isWSChar (c : Char) : Bool :=
  c = ' ' || c = '\t' || c = '\n' || c = '\r' || c = Char.ofNat 11 || c = Char.ofNat 12

/-- `isPre p s` is true when `p` is a prefix of `s`. -/
def isPre : List Char → List Char → Bool
  | [], _ => true
  | _ :: _, [] => false
  | a :: as, b :: bs => a = b && isPre as bs

/-- Python `str.startswith`. -/
def strStarts (s p : String) : Bool := isPre p.data s.data

/-- Python `str.endswith`. -/
def strEnds (s p : String) : Bool := isPre p.data.reverse s.data.reverse

/-- Python substring test `needle in hay`. -/
def containsSub : List Char → List Char → Bool
  | [], n => isPre n []
  | c :: t, n => isPre n (c :: t) || containsSub t n

/-- Auxiliary for `countOcc`: scan positions left to right; `skip` positions
are still inside the previous counted occurrence (Python `str.count` counts
non-overlapping occurrences from the left). -/
def countOccA : List Char → List Char → Nat → Nat
  | [], _, _ => 0
  | _ :: t, n, skip + 1 => countOccA t n skip
  | c :: t, n, 0 =>
    if isPre n (c :: t) then 1 + countOccA t n (n.length - 1)
    else countOccA t n 0

/-- Python `hay.count(needle)` for a non-empty needle. -/
def countOcc (hay needle : List Char) : Nat := countOccA hay needle 0

/-- Python `re.sub(r'\s+', ' ', s)` — collapse every whitespace run to a
single space.  The boolean records whether the previous character was
whitespace. -/
def collapseA : List Char → Bool → List Char
  | [], _ => []
  | c :: t, inWS =>
    if isWSChar c then
      if inWS then collapseA t true else ' ' :: collapseA t true
    else c :: collapseA t false

def collapseWS (cs : List Char) : List Char := collapseA cs false

/-- Python `str.strip()`. -/
def stripWS (cs : List Char) : List Char :=
  ((cs.dropWhile isWSChar).reverse.dropWhile isWSChar).reverse

/-- Auxiliary for `splitWS` carrying the current (reversed) token. -/
def splitWSAux : List Char → List Char → List (List Char)
  | [], acc => if acc.isEmpty then [] else [acc.reverse]
  | c :: t, acc =>
    if isWSChar c then
      if acc.isEmpty then splitWSAux t [] else acc.reverse :: splitWSAux t []
    else splitWSAux t (c :: acc)

/-- Python `str.split()` — split on whitespace runs, no empty tokens. -/
def splitWS (cs : List Char) : List (List Char) := splitWSAux cs []

/-! ## Matcher combinators

A matcher `List Char → Option (α × List Char)` tries to match at the start
of its input, returning a captured value and the remaining suffix.  They
embed the concrete regex pieces used by the query parser. -/

/-- Match a literal string. -/
def mLit (lit : String) (cs : List Char) : Option (List Char) :=
  if isPre lit.data cs then some (List.drop lit.data.length cs) else none

/-- Regex `\s+` (greedy; every use in the source is followed by a
non-whitespace literal, so greedy matching needs no backtracking). -/
def mWS1 (cs : List Char) : Option (List Char) :=
  let r := cs.dropWhile isWSChar
  if r.length < cs.length then some r else none

/-- Regex `\s*`. -/
def mWS0 (cs : List Char) : List Char := cs.dropWhile isWSChar

/-- Regex `\d+` (greedy), returning the digit characters. -/
def mDigits1 (cs : List Char) : Option (List Char × List Char) :=
  let ds := cs.takeWhile (fun c => c.isDigit)
  if ds.isEmpty then none else some (ds, List.drop ds.length cs)

def digitsToNat (ds : List Char) : Nat :=
  ds.foldl (fun a c => a * 10 + (c.toNat - 48)) 0

/-- A decimal magnitude `ip.fnum` with `fden` fractional digits; its value
is the exact rational `ip + fnum / 10 ^ fden`. -/
structure DecNum where
  ip : Nat
  fnum : Nat
  fden : Nat
deriving DecidableEq

/-- Regex `\d+(?:\.\d+)?` as a decimal magnitude (the optional fraction
backtracks to nothing when no digit follows the dot). -/
def mNumber (cs : List Char) : Option (DecNum × List Char) :=
  match mDigits1 cs with
  | none => none
  | some (ds, r1) =>
    match r1 with
    | '.' :: r2 =>
      match mDigits1 r2 with
      | some (fs, r3) =>
        some (⟨digitsToNat ds, digitsToNat fs, fs.length⟩, r3)
      | none => some (⟨digitsToNat ds, 0, 0⟩, r1)
    | _ => some (⟨digitsToNat ds, 0, 0⟩, r1)

/-- `int(value * mult)` for the non-negative decimal magnitude: the exact
rational `(ip + fnum / 10 ^ fden) * mult`, truncated to integer bytes. -/
def decNumBytes (v : DecNum) (mult : Nat) : Nat :=
  (v.ip * 10 ^ v.fden + v.fnum) * mult / 10 ^ v.fden

/-- Ordered alternation of literals (Python `re` tries alternatives left to
right; all alternative lists in the source are either prefix-free or end
the pattern, so the first literal match decides). -/
def mAlts {α : Type} (alts : List (String × α)) (cs : List Char) :
    Option (α × List Char) :=
  match alts with
  | [] => none
  | (s, a) :: rest =>
    match mLit s cs with
    | some r => some (a, r)
    | none => mAlts rest cs

/-- Leftmost-match search: try the matcher at every position left to right
(`re.search`). -/
def searchM {α : Type} (m : List Char → Option (α × List Char)) :
    List Char → Option α
  | [] =>
    match m [] with
    | some (a, _) => some a
    | none => none
  | c :: t =>
    match m (c :: t) with
    | some (a, _) => some a
    | none => searchM m t

/-- Auxiliary for `gsub`: `skip` characters are still inside the current
deleted match (`re.sub` resumes scanning right after each match). -/
def gsubA {α : Type} (m : List Char → Option (α × List Char)) :
    List Char → Nat → List Char
  | [], _ => []
  | _ :: t, skip + 1 => gsubA m t skip
  | c :: t, 0 =>
    match m (c :: t) with
    | some (_, rest) =>
      let k := t.length + 1 - rest.length
      if k = 0 then c :: gsubA m t 0 else gsubA m t (k - 1)
    | none => c :: gsubA m t 0

/-- Python `re.sub(pattern, '', s)`: delete every non-overlapping leftmost
match.  All patterns used in the source consume at least one character. -/
def gsub {α : Type} (m : List Char → Option (α × List Char))
    (cs : List Char) : List Char := gsubA m cs 0

/-! ## Time-constraint parsing (`parse_time_constraint`) -/

inductive TUnit where
  | hour
  | day
  | week
  | month
deriving DecidableEq

/-- Seconds per unit (`hour=3600, day=86400, week=604800, month=2592000`). -/
def unitSeconds : TUnit → Nat
  | .hour => 3600
  | .day => 86400
  | .week => 604800
  | .month => 2592000

/-- The ordered alternation `hour|hours|day|days|week|weeks|month|months`
from the source pattern.  Python tries alternatives in order, so on input
"hours" the alternative "hour" matches (leaving the trailing "s" outside
the match, which matters for the later `re.sub` stripping). -/
def timeUnitAlts : List (String × TUnit) :=
  [("hour", .hour), ("hours", .hour), ("day", .day), ("days", .day),
   ("week", .week), ("weeks", .week), ("month", .month), ("months", .month)]

/-- Core of the time pattern: `last\s+(\d+)\s+(hour|hours|...)`. -/
def mTimeCore (cs : List Char) : Option ((Nat × TUnit) × List Char) := do
  let r1 ← mLit "last" cs
  let r2 ← mWS1 r1
  let (ds, r3) ← mDigits1 r2
  let r4 ← mWS1 r3
  let (u, r5) ← mAlts timeUnitAlts r4
  pure ((digitsToNat ds, u), r5)

/-- Full time pattern `(?:in\s+the\s+)?last\s+(\d+)\s+(unit...)` at one
position: the optional prefix is tried first, and on failure the engine
backtracks to matching the core at the same position. -/
def mTimeAt (cs : List Char) : Option ((Nat × TUnit) × List Char) :=
  match (do
    let r1 ← mLit "in" cs
    let r2 ← mWS1 r1
    let r3 ← mLit "the" r2
    let r4 ← mWS1 r3
    mTimeCore r4) with
  | some res => some res
  | none => mTimeCore cs

/-- `re.search` of the duration pattern over the lower-cased query. -/
def findTimeMatch (ql : List Char) : Option (Nat × TUnit) := searchM mTimeAt ql

inductive TimeField where
  | created
  | modified
  | accessed
deriving DecidableEq

/-- The keyword scan of `parse_time_constraint`: `created`/`creation` pick
the creation time, then `modified`/`modification`/`changed`, then
`accessed`/`access`, defaulting to the modification time. -/
def timeFieldOf (ql : List Char) : TimeField :=
  if containsSub ql "created".data || containsSub ql "creation".data then .created
  else if containsSub ql "modified".data || containsSub ql "modification".data
      || containsSub ql "changed".data then .modified
  else if containsSub ql "accessed".data || containsSub ql "access".data then .accessed
  else .modified

/-- `FileIndexer.parse_time_constraint(query)` with `now` the current
timestamp: returns the time field and `cutoff = now - N * unitSeconds`. -/
def parse_time_constraint (q : String) (now : Int) : Option (TimeField × Int) :=
  let ql := (lowerStr q).data
  match findTimeMatch ql with
  | some (n, u) => some (timeFieldOf ql, now - (n : Int) * (unitSeconds u : Int))
  | none => none

/-! ## Size-constraint parsing (`parse_size_constraint`) -/

inductive SizeOp where
  | lt
  | gt
  | le
  | ge
  | eq
deriving DecidableEq

/-- Unit multipliers `kb|mb|gb|tb`, tried in the order of the pattern. -/
def unitAlts : List (String × Nat) :=
  [("kb", 1024), ("mb", 1048576), ("gb", 1073741824), ("tb", 1099511627776)]

/-- Regex `(\d+(?:\.\d+)?)\s*(kb|mb|gb|tb)`, capturing magnitude and
multiplier. -/
def mNumUnit (cs : List Char) : Option ((DecNum × Nat) × List Char) := do
  let (v, r1) ← mNumber cs
  let r2 := mWS0 r1
  let (m, r3) ← mAlts unitAlts r2
  pure ((v, m), r3)

/-- Regex `word\s+than\s+(\d+(?:\.\d+)?)\s*(kb|mb|gb|tb)`. -/
def mWordThan (w : String) (cs : List Char) : Option ((DecNum × Nat) × List Char) := do
  let r1 ← mLit w cs
  let r2 ← mWS1 r1
  let r3 ← mLit "than" r2
  let r4 ← mWS1 r3
  mNumUnit r4

/-- Regex `(\d+(?:\.\d+)?)\s*(kb|mb|gb|tb)\s+or\s+tail`. -/
def mOrTail (tail : String) (cs : List Char) : Option ((DecNum × Nat) × List Char) := do
  let (vm, r1) ← mNumUnit cs
  let r2 ← mWS1 r1
  let r3 ← mLit "or" r2
  let r4 ← mWS1 r3
  let r5 ← mLit tail r4
  pure (vm, r5)

/-- Regex `sym\s*(\d+(?:\.\d+)?)\s*(kb|mb|gb|tb)` for a bare comparison
operator. -/
def mOpSym (sym : String) (cs : List Char) : Option ((DecNum × Nat) × List Char) := do
  let r1 ← mLit sym cs
  mNumUnit (mWS0 r1)

/-- Regex `equal\s+to\s+(\d+(?:\.\d+)?)\s*(kb|mb|gb|tb)`. -/
def mEqualTo (cs : List Char) : Option ((DecNum × Nat) × List Char) := do
  let r1 ← mLit "equal" cs
  let r2 ← mWS1 r1
  let r3 ← mLit "to" r2
  let r4 ← mWS1 r3
  mNumUnit r4

/-- Word alternation of the final fallback pattern
`files?\s+(less|smaller|greater|larger|bigger)\s+than\s+...`, with the
operator chosen by the captured word. -/
def sizeWordAlts17 : List (String × SizeOp) :=
  [("less", .lt), ("smaller", .lt), ("greater", .gt), ("larger", .gt), ("bigger", .gt)]

/-- The fallback pattern `files?\s+(word)\s+than\s+num\s*unit`; `s?` is
greedy and backtracks. -/
def mFilesPat (cs : List Char) : Option ((SizeOp × DecNum × Nat) × List Char) :=
  let core := fun (r : List Char) => do
    let (op, r1) ← mAlts sizeWordAlts17 r
    let r2 ← mWS1 r1
    let r3 ← mLit "than" r2
    let r4 ← mWS1 r3
    let (vm, r5) ← mNumUnit r4
    pure ((op, vm.1, vm.2), r5)
  match (do
    let r1 ← mLit "files" cs
    let r2 ← mWS1 r1
    core r2) with
  | some res => some res
  | none => do
    let r1 ← mLit "file" cs
    let r2 ← mWS1 r1
    core r2

/-- Tag a value-free matcher with its operator. -/
def withOp (op : SizeOp) (m : List Char → Option ((DecNum × Nat) × List Char))
    (cs : List Char) : Option ((SizeOp × DecNum × Nat) × List Char) :=
  (m cs).map (fun p => ((op, p.1.1, p.1.2), p.2))

/-- The ordered pattern list of `parse_size_constraint`, exactly in source
order: first pattern whose `re.search` succeeds wins. -/
def sizePatterns : List (List Char → Option ((SizeOp × DecNum × Nat) × List Char)) :=
  [ withOp .lt (mWordThan "smaller"), withOp .lt (mWordThan "less"),
    withOp .gt (mWordThan "larger"), withOp .gt (mWordThan "greater"),
    withOp .gt (mWordThan "bigger"), withOp .eq mEqualTo,
    withOp .le (mOrTail "less"), withOp .ge (mOrTail "more"),
    withOp .le (mOrTail "smaller"), withOp .ge (mOrTail "larger"),
    withOp .ge (mOrTail "bigger"),
    withOp .lt (mOpSym "<"), withOp .gt (mOpSym ">"),
    withOp .le (mOpSym "<="), withOp .ge (mOpSym ">="), withOp .eq (mOpSym "="),
    mFilesPat ]

/-- Try the patterns in order; on the first hit convert the magnitude with
the unit multiplier, truncating to integer bytes (Python `int(...)` on a
non-negative float). -/
def firstSizeHit :
    List (List Char → Option ((SizeOp × DecNum × Nat) × List Char)) → List Char →
    Option (SizeOp × Int)
  | [], _ => none
  | m :: ms, ql =>
    match searchM m ql with
    | some (op, v, mult) => some (op, (decNumBytes v mult : Int))
    | none => firstSizeHit ms ql

/-- `FileIndexer.parse_size_constraint(query)`. -/
def parse_size_constraint (q : String) : Option (SizeOp × Int) :=
  firstSizeHit sizePatterns ((lowerStr q).data)

/-! ## Residual-text cleaning (the `re.sub` chains of `_metadata_search`
and `_fuzzy_search`) -/

/-- The time pattern used as a deletion. -/
def mTimeSub (cs : List Char) : Option (Unit × List Char) :=
  (mTimeAt cs).map (fun p => ((), p.2))

/-- Deletion pattern
`(less|greater|equal|smaller|larger|bigger)\s+than\s+num\s*unit`. -/
def mSizeWordSub (cs : List Char) : Option (Unit × List Char) := do
  let (_, r1) ← mAlts [("less", ()), ("greater", ()), ("equal", ()),
    ("smaller", ()), ("larger", ()), ("bigger", ())] cs
  let r2 ← mWS1 r1
  let r3 ← mLit "than" r2
  let r4 ← mWS1 r3
  let (_, r5) ← mNumUnit r4
  pure ((), r5)

/-- Deletion pattern `\d+(?:\.\d+)?\s*(kb|mb|gb|tb).*` of
`_metadata_search` — the trailing `.*` swallows the rest of the line. -/
def mNumUnitRest (cs : List Char) : Option (Unit × List Char) := do
  let (_, r1) ← mNumUnit cs
  pure ((), r1.dropWhile (fun c => c != '\n'))

/-- Deletion pattern `files?\s+`. -/
def mFilesWord (cs : List Char) : Option (Unit × List Char) :=
  match (do
    let r1 ← mLit "files" cs
    let r2 ← mWS1 r1
    pure ((), r2)) with
  | some res => some res
  | none => do
    let r1 ← mLit "file" cs
    let r2 ← mWS1 r1
    pure ((), r2)

/-- Deletion pattern `[<>=]+\s*\d+(?:\.\d+)?\s*(kb|mb|gb|tb)` of
`_fuzzy_search`. -/
def mOpClassPat (cs : List Char) : Option (Unit × List Char) :=
  let ops := cs.takeWhile (fun c => c = '<' || c = '>' || c = '=')
  if ops.isEmpty then none
  else do
    let (_, r3) ← mNumUnit (mWS0 (List.drop ops.length cs))
    pure ((), r3)

/-- Deletion pattern
`\d+(?:\.\d+)?\s*(kb|mb|gb|tb)(?:\s+or\s+(less|more|smaller|larger|bigger))?`
of `_fuzzy_search`; the optional qualifier is greedy and backtracks. -/
def mNumUnitOrQual (cs : List Char) : Option (Unit × List Char) := do
  let (_, r1) ← mNumUnit cs
  match (do
    let r2 ← mWS1 r1
    let r3 ← mLit "or" r2
    let r4 ← mWS1 r3
    let (_, r5) ← mAlts [("less", ()), ("more", ()), ("smaller", ()),
      ("larger", ()), ("bigger", ())] r4
    pure ((), r5)) with
  | some p => pure ((), p.2)
  | none => pure ((), r1)

/-- The residual-text computation of `_metadata_search` (lines 504-511):
strip the time phrase, two size phrasings, a `files?` token, collapse
whitespace, strip.  The substitutions are applied unconditionally. -/
def metadataClean (ql : List Char) : List Char :=
  stripWS (collapseWS (gsub mFilesWord (gsub mNumUnitRest
    (gsub mSizeWordSub (gsub mTimeSub ql)))))

/-- The residual-text computation of `_fuzzy_search` (lines 664-674): the
time and size substitutions are applied only when the corresponding
constraint was recognized. -/
def fuzzyResidual (q : String) (now : Int) : List Char :=
  let ql := (lowerStr q).data
  let s1 := if (parse_time_constraint q now).isSome then gsub mTimeSub ql else ql
  let s2 :=
    if (parse_size_constraint q).isSome then
      gsub mNumUnitOrQual (gsub mOpClassPat (gsub mSizeWordSub s1))
    else s1
  stripWS (collapseWS (gsub mFilesWord s2))

/-! ## The `files` table rows -/

/-- One row of the `files` table (`init_database`), as produced by
`index_directory`. -/
structure FileRecord where
  id : Nat
  file_path : String
  file_name : String
  file_type : String
  file_extension : String
  file_size : Int
  created_time : Int
  modified_time : Int
  accessed_time : Int
  parent_directory : String
  depth : Nat
  is_hidden : Bool
  indexed_time : Int
  file_hash : Option String
deriving DecidableEq

def getTimeField (r : FileRecord) : TimeField → Int
  | .created => r.created_time
  | .modified => r.modified_time
  | .accessed => r.accessed_time

/-- The SQL predicate `time_field >= cutoff` (absent constraint passes). -/
def timePredB (tc : Option (TimeField × Int)) (r : FileRecord) : Bool :=
  match tc with
  | none => true
  | some (f, cut) => decide (cut ≤ getTimeField r f)

/-- The SQL predicate `file_size OP bytes`. -/
def sizeCmp (op : SizeOp) (a b : Int) : Bool :=
  match op with
  | .lt => decide (a < b)
  | .gt => decide (b < a)
  | .le => decide (a ≤ b)
  | .ge => decide (b ≤ a)
  | .eq => decide (a = b)

def sizePredB (sc : Option (SizeOp × Int)) (r : FileRecord) : Bool :=
  match sc with
  | none => true
  | some (op, n) => sizeCmp op r.file_size n

/-! ## SQL `LIKE` and ordering -/

/-- SQLite `LIKE` with fuel (`%` matches any sequence, `_` any character,
comparison is ASCII case-insensitive).  The fuel `ps.length + s.length`
strictly decreases on every recursive call, so it never runs out. -/
def likeGo : Nat → List Char → List Char → Bool
  | 0, ps, s => ps.isEmpty && s.isEmpty
  | f + 1, ps, s =>
    match ps, s with
    | [], [] => true
    | [], _ :: _ => false
    | '%' :: pr, [] => likeGo f pr []
    | '%' :: pr, c :: t => likeGo f pr (c :: t) || likeGo f ('%' :: pr) t
    | '_' :: pr, _ :: t => likeGo f pr t
    | '_' :: _, [] => false
    | p :: pr, c :: t => (p.toLower = c.toLower) && likeGo f pr t
    | _ :: _, [] => false

/-- `column LIKE '%pat%'` as issued by the searches. -/
def likeCI (s pat : String) : Bool :=
  let ps := '%' :: pat.data ++ ['%']
  likeGo (ps.length + s.data.length) ps s.data

/-- Insert into a descending-sorted list, after all entries with an equal
or larger key (stable). -/
def insDescBy {α : Type} (key : α → Int) (x : α) : List α → List α
  | [] => [x]
  | y :: ys => if key y < key x then x :: y :: ys else y :: insDescBy key x ys

/-- Stable sort by an integer key, descending (the model of SQL
`ORDER BY ... DESC` and of Python's stable `sort(reverse=True)`). -/
def sortKeyDesc {α : Type} (key : α → Int) (l : List α) : List α :=
  l.foldl (fun acc x => insDescBy key x acc) []

/-! ## The four search strategies (`search_files` and helpers) -/

/-- `FileIndexer._metadata_search`: constraint predicates, plus a residual
substring match on name or path when residual text remains, ordered by
`modified_time` descending, truncated to `limit`. -/
def metadata_search (q : String) (now : Int) (db : List FileRecord)
    (limit : Nat) : List FileRecord :=
  let tc := parse_time_constraint q now
  let sc := parse_size_constraint q
  let clean := metadataClean ((lowerStr q).data)
  let pred := fun r => timePredB tc r && sizePredB sc r &&
    (clean.isEmpty || likeCI r.file_name (String.mk clean)
      || likeCI r.file_path (String.mk clean))
  List.take limit (sortKeyDesc (fun r => r.modified_time) (db.filter pred))

/-- `FileIndexer._exact_search`: raw-query substring match on name or path,
ordered by `modified_time` descending, truncated to `limit`. -/
def exact_search (q : String) (db : List FileRecord) (limit : Nat) :
    List FileRecord :=
  List.take limit (sortKeyDesc (fun r => r.modified_time)
    (db.filter (fun r => likeCI r.file_name q || likeCI r.file_path q)))

/-- The constraint-filtered candidate set of `_fuzzy_search` (the SQL
`SELECT * FROM files WHERE ...` with the time/size clauses only). -/
def fuzzyFilteredSet (q : String) (now : Int) (db : List FileRecord) :
    List FileRecord :=
  db.filter (fun r =>
    timePredB (parse_time_constraint q now) r && sizePredB (parse_size_constraint q) r)

/-- The scoring text `f"{file_name} {parent_directory}".lower()`. -/
def searchableOf (r : FileRecord) : List Char :=
  (lowerStr (r.file_name ++ " " ++ r.parent_directory)).data

/-- The scoring loop of `_fuzzy_search`: for each token, if it occurs in
the searchable text, add its occurrence count. -/
def pyScore (terms : List (List Char)) (r : FileRecord) : Nat :=
  terms.foldl (fun acc t =>
    if containsSub (searchableOf r) t then acc + countOcc (searchableOf r) t
    else acc) 0

/-- `FileIndexer._fuzzy_search`: filter by the constraints; if no residual
text remains return the filtered set by `modified_time` descending;
otherwise keep the records with positive token score paired with their
score, sort by score descending (stable), truncate, and return the
records. -/
def fuzzy_search (q : String) (now : Int) (db : List FileRecord)
    (limit : Nat) : List FileRecord :=
  if (fuzzyResidual q now).isEmpty then
    List.take limit
      (sortKeyDesc (fun r => r.modified_time) (fuzzyFilteredSet q now db))
  else
    List.map Prod.fst
      (List.take limit (sortKeyDesc (fun p => Int.ofNat p.2)
        ((fuzzyFilteredSet q now db).filterMap (fun r =>
          if 0 < pyScore (splitWS (fuzzyResidual q now)) r then
            some (r, pyScore (splitWS (fuzzyResidual q now)) r)
          else none))))

/-- `FileIndexer.search_files`: strategy dispatch.  The semantic strategy
runs only when a model is present; its embedding-based body is the external
capability `semRes`.  With no model, the `semantic` strategy falls to the
final `else` branch. -/
def search_files (hasModel : Bool) (semRes : List FileRecord) (q : String)
    (stype : String) (now : Int) (db : List FileRecord) (limit : Nat) :
    List FileRecord :=
  if stype = "semantic" ∧ hasModel = true then semRes
  else if stype = "fuzzy" then fuzzy_search q now db limit
  else if stype = "exact" then
    if (parse_time_constraint q now).isSome = true
        ∨ (parse_size_constraint q).isSome = true then
      metadata_search q now db limit
    else exact_search q db limit
  else fuzzy_search q now db limit

/-- The spec's formulation of the fuzzy score: the sum over tokens of the
token's occurrence count in the searchable text. -/
def fuzzySpecScore (clean : List Char) (r : FileRecord) : Nat :=
  ((splitWS clean).map (fun t => countOcc (searchableOf r) t)).sum

/-! ## The path-ignoring filter (`should_ignore_path`)

A filesystem path is modelled by its segment list, `Path(path).parts` — for
an absolute path the first segment is `"/"` and `os.path.basename` is the
last segment.  The check for virtual-environment marker files consults the
filesystem through an abstract existence predicate over segment lists. -/

def ignoreDirs : List String :=
  ["venv", ".venv", "env", ".env", "virtualenv", ".virtualenv",
   "env.bak", "venv.bak",
   "node_modules", ".npm", ".yarn", ".yarn-cache",
   "__pycache__", ".pytest_cache", ".mypy_cache", ".ruff_cache",
   ".tox", ".coverage", "htmlcov", ".hypothesis", ".cache",
   "build", "dist", ".eggs",
   ".idea", ".vscode", ".vs", ".sublime-project", ".sublime-workspace",
   ".git", ".svn", ".hg", ".bzr",
   ".pip", ".conda",
   ".next", ".nuxt", ".output", ".temp", ".tmp",
   "coverage", ".nyc_output", ".parcel-cache",
   "logs"]

def hiddenAllow : List String :=
  [".gitignore", ".gitattributes", ".editorconfig", ".pre-commit-config.yaml"]

def systemFiles : List String :=
  [".ds_store", "thumbs.db", "desktop.ini", ".directory",
   ".localized", ".trash", ".trashes"]

def lockFiles : List String :=
  ["package-lock.json", "yarn.lock", "poetry.lock", "pipfile.lock"]

def depDirNames : List String := ["node_modules", "venv", ".venv", "env", ".env"]

def venvNames : List String := ["venv", ".venv", "env", ".env", "virtualenv"]

def venvMarkers : List String :=
  ["pyvenv.cfg", "activate", "activate.bat", "activate.ps1"]

/-- The per-segment loop body of `should_ignore_path` (segments arrive
already lower-cased): `.`/`..` are skipped, ignore-set members and
`*.egg-info` segments are rejected for files and directories alike, and a
hidden segment is rejected only when the path is tested as a directory and
the segment is not on the allow-list. -/
def partBad (isDir : Bool) (p : String) : Bool :=
  if p = "." || p = ".." then false
  else if ignoreDirs.contains p then true
  else if strEnds p ".egg-info" then true
  else if strStarts p "." && isDir && !(hiddenAllow.contains p)
      && decide (1 < p.length) then true
  else false

/-- The file-specific rules of `should_ignore_path`: OS junk names,
compiled/backup/temp suffixes, lock files, and compiled binaries inside a
dependency directory. -/
def fileNameBad (lparts : List String) (fname : String) : Bool :=
  let fl := lowerStr fname
  systemFiles.contains fl
  || strEnds fl ".pyc" || strEnds fl ".pyo" || strEnds fl ".pyd"
  || strEnds fl ".bak" || strEnds fl ".tmp" || strEnds fl ".temp"
  || strEnds fl ".swp" || strEnds fl ".swo" || strEnds fl "~"
  || lockFiles.contains fl
  || ((strEnds fl ".so" || strEnds fl ".dylib" || strEnds fl ".dll"
        || strEnds fl ".exe")
      && depDirNames.any (fun d => lparts.contains d))

/-- All non-empty initial segment lists of a path, longest first: the
candidate directory itself followed by its parents (`[current] + parents`,
with `Path('/')` appearing as `["/"]`). -/
def ancestors {α : Type} (ps : List α) : List (List α) :=
  (ps.reverse.tails.filter (fun t => !t.isEmpty)).map List.reverse

/-- The directory-only virtual-environment detection: some ancestor (or the
directory itself) has a venv-style name and contains an activation marker
file. -/
def venvAncestorBad (markerEx : List String → Bool) (parts : List String) : Bool :=
  (ancestors parts).any (fun pre =>
    venvNames.contains (lowerStr (pre.getLastD ""))
    && venvMarkers.any (fun mrk => markerEx (pre ++ [mrk])))

/-- `FileIndexer.should_ignore_path(path, is_directory)` over the path's
segment list. -/
def should_ignore_parts (markerEx : List String → Bool) (parts : List String)
    (isDir : Bool) : Bool :=
  let lparts := parts.map lowerStr
  if lparts.any (partBad isDir) then true
  else if !isDir && fileNameBad lparts (parts.getLastD "") then true
  else if isDir && venvAncestorBad markerEx parts then true
  else false

/-! ## Scanning and indexing (`index_directory`) -/

/-- What `os.stat` and `calculate_file_hash` report for one file: the
`hash` field is what `calculate_file_hash` would return when invoked
(`none` models a read failure tolerated by the source). -/
structure FileEntry where
  name : String
  size : Int
  ctime : Int
  mtime : Int
  atime : Int
  hash : Option String
deriving DecidableEq

mutual
inductive FSTree where
  | node (dirs : FSDirList) (files : List FileEntry)
inductive FSDirList where
  | nil
  | cons (name : String) (tree : FSTree) (rest : FSDirList)
end

/-- `os.path.join(dirpath, name)`. -/
def joinSeg (dp n : String) : String :=
  if strEnds dp "/" then dp ++ n else dp ++ "/" ++ n

/-- The number of leading dots of a filename (ignored by
`os.path.splitext`). -/
def leadDots (cs : List Char) : Nat := (cs.takeWhile (fun c => c = '.')).length

/-- Index of the last `.` in a name, if any. -/
def lastDotIdxA : List Char → Nat → Option Nat → Option Nat
  | [], _, best => best
  | c :: t, i, best => lastDotIdxA t (i + 1) (if c = '.' then some i else best)

/-- `os.path.splitext(name)[1].lower()`: the extension from the last dot,
unless every character before that dot is itself a dot. -/
def fileExt (name : String) : String :=
  let cs := name.data
  match lastDotIdxA cs 0 none with
  | none => ""
  | some i => if leadDots cs ≤ i then lowerStr (String.mk (List.drop i cs)) else ""

/-- The extension-to-type classification of `get_file_type`. -/
def typeMap : List (String × String) :=
  [(".txt", "Text"),
   (".doc", "Document"), (".docx", "Document"), (".pdf", "Document"), (".odt", "Document"),
   (".xls", "Spreadsheet"), (".xlsx", "Spreadsheet"), (".csv", "Spreadsheet"),
   (".ppt", "Presentation"), (".pptx", "Presentation"),
   (".jpg", "Image"), (".jpeg", "Image"), (".png", "Image"), (".gif", "Image"),
   (".bmp", "Image"), (".svg", "Image"),
   (".mp4", "Video"), (".avi", "Video"), (".mov", "Video"), (".mkv", "Video"),
   (".mp3", "Audio"), (".wav", "Audio"), (".flac", "Audio"), (".m4a", "Audio"),
   (".zip", "Archive"), (".rar", "Archive"), (".7z", "Archive"), (".tar", "Archive"),
   (".gz", "Archive"),
   (".py", "Code"), (".js", "Code"), (".java", "Code"), (".cpp", "Code"),
   (".c", "Code"), (".html", "Code"), (".css", "Code"), (".json", "Code"),
   (".xml", "Code"), (".sql", "Code"),
   (".exe", "Executable"), (".app", "Executable"), (".dmg", "Executable")]

def get_file_type (fname : String) : String :=
  (List.lookup (fileExt fname) typeMap).getD "Other"

/-- The `file_data` dictionary built for each indexed file (`id` and
`indexed_time` are attached at insertion time). -/
structure FileData where
  file_path : String
  file_name : String
  file_type : String
  file_extension : String
  file_size : Int
  created_time : Int
  modified_time : Int
  accessed_time : Int
  parent_directory : String
  depth : Nat
  is_hidden : Bool
  file_hash : Option String
deriving DecidableEq

/-- Build the `file_data` record for a file entry found in directory `dp`
(whose segments below the scan root are `rel`): `depth` is
`len(Path(file_path).relative_to(root_path).parts)`, which counts the
directory segments below the root plus the file's own name. -/
def mkData (dp : String) (rel : List String) (fe : FileEntry) : FileData :=
  { file_path := joinSeg dp fe.name
    file_name := fe.name
    file_type := get_file_type fe.name
    file_extension := fileExt fe.name
    file_size := fe.size
    created_time := fe.ctime
    modified_time := fe.mtime
    accessed_time := fe.atime
    parent_directory := dp
    depth := rel.length + 1
    is_hidden := strStarts fe.name "."
    file_hash := if fe.size < 10485760 then fe.hash else none }

/-- The per-directory file loop of `index_directory`: returns the produced
records and the number of skipped files. -/
def processFiles (markerEx : List String → Bool) (dp : String)
    (dparts rel : List String) : List FileEntry → (List FileData × Nat)
  | [] => ([], 0)
  | fe :: rest =>
    let r := processFiles markerEx dp dparts rel rest
    if should_ignore_parts markerEx (dparts ++ [fe.name]) false then
      (r.1, r.2 + 1)
    else (mkData dp rel fe :: r.1, r.2)

structure WalkRes where
  datas : List FileData
  total : Nat
  skippedN : Nat

mutual
/-- `os.walk` with the prune-before-descend filtering of
`index_directory`: each directory's own files are processed, then the
kept subdirectories in order. -/
def walkTree (markerEx : List String → Bool) (dp : String)
    (dparts rel : List String) : FSTree → WalkRes
  | .node dirs files =>
    let own := processFiles markerEx dp dparts rel files
    let sub := walkDirs markerEx dp dparts rel dirs
    { datas := own.1 ++ sub.datas
      total := files.length + sub.total
      skippedN := own.2 + sub.skippedN }
/-- The subdirectory filter of `index_directory`: a child is skipped (and
never descended into) when `should_ignore_path` rejects it or when it is a
hidden directory not on the allow-list. -/
def walkDirs (markerEx : List String → Bool) (dp : String)
    (dparts rel : List String) : FSDirList → WalkRes
  | .nil => { datas := [], total := 0, skippedN := 0 }
  | .cons d t rest =>
    let r := walkDirs markerEx dp dparts rel rest
    if should_ignore_parts markerEx (dparts ++ [d]) true then
      { r with skippedN := r.skippedN + 1 }
    else if strStarts d "." && !(hiddenAllow.contains d) then
      { r with skippedN := r.skippedN + 1 }
    else
      let w := walkTree markerEx (joinSeg dp d) (dparts ++ [d]) (rel ++ [d]) t
      { datas := w.datas ++ r.datas
        total := w.total + r.total
        skippedN := w.skippedN + r.skippedN }
end

/-- Counters returned by `index_directory` (per-file I/O failures are not
modelled, so `errors` stays 0). -/
structure Stats where
  total : Nat
  indexed : Nat
  skipped : Nat
  errors : Nat
deriving DecidableEq

/-- The two persisted tables plus the AUTOINCREMENT counter: `DELETE FROM`
does not reset the sequence, and each insert uses a fresh rowid. -/
structure DBState where
  files : List FileRecord
  embeddings : List (Nat × String)
  nextId : Nat
deriving DecidableEq

def emptyDB : DBState := { files := [], embeddings := [], nextId := 1 }

/-- `DELETE FROM embeddings; DELETE FROM files`. -/
def clearStores (st : DBState) : DBState := { st with files := [], embeddings := [] }

def mkRecord (d : FileData) (rid : Nat) (now : Int) : FileRecord :=
  { id := rid
    file_path := d.file_path
    file_name := d.file_name
    file_type := d.file_type
    file_extension := d.file_extension
    file_size := d.file_size
    created_time := d.created_time
    modified_time := d.modified_time
    accessed_time := d.accessed_time
    parent_directory := d.parent_directory
    depth := d.depth
    is_hidden := d.is_hidden
    indexed_time := now
    file_hash := d.file_hash }

/-- One iteration of the insert loop: `INSERT OR REPLACE INTO files`
deletes any row with the same unique `file_path` and inserts a fresh row
with a new rowid; then, when the embedding model is present and the file is
under 1 MiB, `INSERT OR REPLACE INTO embeddings` stores the vector for the
new rowid.  Python's `sqlite3` never issues `PRAGMA foreign_keys=ON`, so
the declared `ON DELETE CASCADE` is not enforced and the embeddings table
is untouched by the `REPLACE` on `files`. -/
def insertData (hasModel : Bool) (now : Int) (st : DBState) (d : FileData) :
    DBState :=
  let r := mkRecord d st.nextId now
  let st1 : DBState :=
    { files := st.files.filter (fun f => f.file_path != d.file_path) ++ [r]
      embeddings := st.embeddings
      nextId := st.nextId + 1 }
  if hasModel && decide (d.file_size < 1048576) then
    { st1 with embeddings :=
        st1.embeddings.filter (fun e => e.1 != r.id)
          ++ [(r.id, d.file_name ++ " " ++ d.file_type ++ " " ++ d.parent_directory)] }
  else st1

/-- `FileIndexer.index_directory(root_path, clear_old)`: optionally clear
both stores, then walk the tree and upsert each produced record (the
interleaving of inserts with the walk in the source is equivalent because
the walk never reads the database). -/
def index_directory (hasModel : Bool) (markerEx : List String → Bool)
    (rootStr : String) (rootParts : List String) (fs : FSTree)
    (clearOld : Bool) (now : Int) (st : DBState) : Stats × DBState :=
  let st0 := if clearOld then clearStores st else st
  let w := walkTree markerEx rootStr rootParts [] fs
  ({ total := w.total, indexed := w.datas.length, skipped := w.skippedN,
     errors := 0 },
   w.datas.foldl (insertData hasModel now) st0)

/-- `FileIndexApp.start_indexing`: reject an empty or non-directory path
with an error (modelled as `none`) before any indexing work; otherwise run
`index_directory` with the default `clear_old=True`. -/
def start_indexing (isDirF : String → Bool) (hasModel : Bool)
    (markerEx : List String → Bool) (rootParts : List String) (fs : FSTree)
    (dir : String) (now : Int) (st : DBState) : Option Stats × DBState :=
  if dir = "" || !(isDirF dir) then (none, st)
  else
    let r := index_directory hasModel markerEx dir rootParts fs true now st
    (some r.1, r.2)

/-! ## Concrete instances used by the claim theorems -/

/-- A filesystem with no virtual-environment marker files. -/
def noMarkers : List String → Bool := fun _ => false

def c1r1 : FileRecord :=
  ⟨1, "/d/alpha/alpha.txt", "alpha.txt", "Text", ".txt", 100, 1, 10, 1,
   "/d/alpha", 2, false, 50, none⟩

def c1r2 : FileRecord :=
  ⟨2, "/d/alpha.txt", "alpha.txt", "Text", ".txt", 100, 1, 20, 1,
   "/d", 1, false, 50, none⟩

def c1DB : List FileRecord := [c1r1, c1r2]

def c2St : DBState :=
  { files := [⟨7, "/z/f.txt", "f.txt", "Other", "", 1, 1, 1, 1, "/z", 1, false, 1, none⟩]
    embeddings := [(7, "blob")]
    nextId := 8 }

def c3Tree : FSTree := .node .nil [⟨"a.txt", 10, 1, 2, 3, some "h1"⟩]

/-- State after indexing `/r` with `clear_old=True` and embeddings enabled. -/
def c3St1 : DBState :=
  (index_directory true noMarkers "/r" ["/", "r"] c3Tree true 100 emptyDB).2

/-- State after re-indexing the same unchanged root with `clear_old=False`. -/
def c3St2 : DBState :=
  (index_directory true noMarkers "/r" ["/", "r"] c3Tree false 200 c3St1).2

def c4Entry : FileEntry := ⟨"a.txt", 10, 1, 2, 3, none⟩

def c4Tree1 : FSTree := .node .nil [c4Entry]

def c4Tree2 : FSTree :=
  .node (.cons "sub" (.node .nil [⟨"b.txt", 5, 1, 2, 3, none⟩]) .nil) [c4Entry]

def c5DB : List FileRecord :=
  [⟨1, "/docs/report.txt", "report.txt", "Text", ".txt", 100, 1, 5, 1,
    "/docs", 1, false, 9, none⟩]

def c8DB : List FileRecord :=
  [⟨1, "/reports/report.txt", "report.txt", "Text", ".txt", 100, 1, 5, 1,
    "/reports", 1, false, 9, none⟩,
   ⟨2, "/misc/notes.txt", "notes.txt", "Text", ".txt", 100, 1, 9, 1,
    "/misc", 1, false, 9, none⟩]

def c10Tree : FSTree := .node .nil [⟨".secret", 5, 1, 2, 3, none⟩]

/-! ## Claim theorems -/

/-- Claim C1, counterexample: with the embedding capability disabled, a
search with strategy `semantic` does not return the Metadata result list —
on a two-record store and query "alpha" the dispatched search (fuzzy)
orders by token score while Metadata orders by modification time, so the
ordered lists differ. -/
theorem C1_counterexample :
    search_files false [] "alpha" "semantic" 0 c1DB 50
      ≠ metadata_search "alpha" 0 c1DB 50 := by decide

/-- Claim C1, amended: with the embedding capability disabled (no model
present), a search issued with strategy `semantic` falls through the
dispatch of `search_files` to the Fuzzy strategy — it returns exactly the
fuzzy result list for the query, not the Metadata result list. -/
theorem C1_semantic_disabled_is_fuzzy :
    ∀ (semRes : List FileRecord) (q : String) (now : Int)
      (db : List FileRecord) (limit : Nat),
      search_files false semRes q "semantic" now db limit
        = fuzzy_search q now db limit := by
  intro semRes q now db limit
  have h1 : ¬("semantic" = "semantic" ∧ (false : Bool) = true) := by simp
  have h2 : ¬(("semantic" : String) = "fuzzy") := by decide
  have h3 : ¬(("semantic" : String) = "exact") := by decide
  unfold search_files
  rw [if_neg h1, if_neg h2, if_neg h3]

/-- Claim C2: for every rootPath that does not resolve to an existing
directory, the index operation (`start_indexing`, which always runs with
`clear_old=True`) reports the failure and leaves both stores untouched —
no FileRecord or EmbeddingVector is deleted or written. -/
theorem C2_invalid_root_no_mutation :
    ∀ (isDirF : String → Bool) (hm : Bool) (me : List String → Bool)
      (rootParts : List String) (fs : FSTree) (dir : String) (now : Int)
      (st : DBState),
      (dir = "" ∨ isDirF dir = false) →
      (start_indexing isDirF hm me rootParts fs dir now st).1 = none
        ∧ (start_indexing isDirF hm me rootParts fs dir now st).2 = st := by
  intro isDirF hm me rootParts fs dir now st h
  have hcond : (dir = "" || !(isDirF dir)) = true := by
    cases h with
    | inl h1 => subst h1; simp
    | inr h1 => simp [h1]
  unfold start_indexing
  rw [if_pos hcond]
  exact ⟨rfl, rfl⟩

/-- Witness for C2 at a concrete missing root over a non-empty store. -/
theorem C2_witness :
    (start_indexing (fun _ => false) true noMarkers ["/", "missing"]
        (FSTree.node .nil []) "/missing" 0 c2St).1 = none
      ∧ (start_indexing (fun _ => false) true noMarkers ["/", "missing"]
          (FSTree.node .nil []) "/missing" 0 c2St).2 = c2St :=
  C2_invalid_root_no_mutation (fun _ => false) true noMarkers ["/", "missing"]
    (FSTree.node .nil []) "/missing" 0 c2St (Or.inr rfl)

/-- Claim C3: the cascade is not enforced by the code.  Indexing a root
with one file (embeddings enabled, `clear_old=True`) and then re-indexing
the unchanged root with `clear_old=False` replaces the files row (fresh
rowid 2) — but because the source never issues `PRAGMA foreign_keys=ON`,
the embeddings row for the deleted record (id 1) survives as an orphan
alongside the new row, contradicting the claimed cascading-delete
invariant. -/
theorem C3_cascade_not_enforced :
    (∃ e ∈ c3St2.embeddings, ∀ f ∈ c3St2.files, f.id ≠ e.1)
      ∧ c3St2.files.map (fun r => r.id) = [2]
      ∧ c3St2.embeddings.map (fun e => e.1) = [1, 2] := by decide

/-- Claim C5: a search requested with strategy `exact` is dispatched to the
Metadata strategy exactly when the query contains a recognized time or size
constraint, and to raw substring matching (`exact_search`) otherwise. -/
theorem C5_exact_dispatch :
    ∀ (hm : Bool) (semRes : List FileRecord) (q : String) (now : Int)
      (db : List FileRecord) (limit : Nat),
      (((parse_time_constraint q now).isSome = true
          ∨ (parse_size_constraint q).isSome = true) →
        search_files hm semRes q "exact" now db limit
          = metadata_search q now db limit)
      ∧ (¬((parse_time_constraint q now).isSome = true
            ∨ (parse_size_constraint q).isSome = true) →
        search_files hm semRes q "exact" now db limit
          = exact_search q db limit) := by
  intro hm semRes q now db limit
  have h1 : ¬(("exact" : String) = "semantic" ∧ hm = true) := by
    intro hh
    exact absurd hh.1 (by decide)
  have h2 : ¬(("exact" : String) = "fuzzy") := by decide
  constructor
  · intro h
    unfold search_files
    rw [if_neg h1, if_neg h2, if_pos rfl, if_pos h]
  · intro h
    unfold search_files
    rw [if_neg h1, if_neg h2, if_pos rfl, if_neg h]

/-- Witness for C5 at a concrete constrained query. -/
theorem C5_witness :
    ((parse_time_constraint "report in the last 2 days" 0).isSome = true
      ∨ (parse_size_constraint "report in the last 2 days").isSome = true)
    ∧ search_files false [] "report in the last 2 days" "exact" 0 c5DB 10
        = metadata_search "report in the last 2 days" 0 c5DB 10 :=
  ⟨Or.inl (by decide),
   (C5_exact_dispatch false [] "report in the last 2 days" 0 c5DB 10).1
     (Or.inl (by decide))⟩

/-- Claim C6: for a query matching the duration pattern, the constraint is
`(field, now - N * unitSeconds)` with hour=3600, day=86400, week=604800,
month=2592000, the field chosen by keyword (created/creation, then
modified/modification/changed, then accessed/access, default modified); in
particular "modified in the last 2 days" gives modifiedAt and
`now - 172800`, and a query without the pattern gives no constraint. -/
theorem C6_time_parsing :
    (∀ (q : String) (now : Int) (n : Nat) (u : TUnit),
        findTimeMatch ((lowerStr q).data) = some (n, u) →
        parse_time_constraint q now
          = some (timeFieldOf ((lowerStr q).data),
              now - (n : Int) * (unitSeconds u : Int)))
    ∧ (∀ (q : String) (now : Int),
        findTimeMatch ((lowerStr q).data) = none →
        parse_time_constraint q now = none)
    ∧ unitSeconds TUnit.hour = 3600 ∧ unitSeconds TUnit.day = 86400
    ∧ unitSeconds TUnit.week = 604800 ∧ unitSeconds TUnit.month = 2592000
    ∧ (∀ ql : List Char,
        (containsSub ql "created".data || containsSub ql "creation".data) = true →
        timeFieldOf ql = TimeField.created)
    ∧ (∀ ql : List Char,
        (containsSub ql "created".data || containsSub ql "creation".data) = false →
        (containsSub ql "modified".data || containsSub ql "modification".data
          || containsSub ql "changed".data) = true →
        timeFieldOf ql = TimeField.modified)
    ∧ (∀ ql : List Char,
        (containsSub ql "created".data || containsSub ql "creation".data) = false →
        (containsSub ql "modified".data || containsSub ql "modification".data
          || containsSub ql "changed".data) = false →
        (containsSub ql "accessed".data || containsSub ql "access".data) = true →
        timeFieldOf ql = TimeField.accessed)
    ∧ (∀ ql : List Char,
        (containsSub ql "created".data || containsSub ql "creation".data) = false →
        (containsSub ql "modified".data || containsSub ql "modification".data
          || containsSub ql "changed".data) = false →
        (containsSub ql "accessed".data || containsSub ql "access".data) = false →
        timeFieldOf ql = TimeField.modified)
    ∧ (∀ now : Int, parse_time_constraint "modified in the last 2 days" now
        = some (TimeField.modified, now - 172800))
    ∧ (∀ now : Int, parse_time_constraint "created in the last 1 week" now
        = some (TimeField.created, now - 604800))
    ∧ (∀ now : Int, parse_time_constraint "quarterly report" now = none) := by
  refine ⟨?_, ?_, rfl, rfl, rfl, rfl, ?_, ?_, ?_, ?_, ?_, ?_, ?_⟩
  · intro q now n u h
    simp only [parse_time_constraint, h]
  · intro q now h
    simp only [parse_time_constraint, h]
  · intro ql h
    simp [timeFieldOf, h]
  · intro ql h1 h2
    simp [timeFieldOf, h1, h2]
  · intro ql h1 h2 h3
    simp [timeFieldOf, h1, h2, h3]
  · intro ql h1 h2 h3
    simp [timeFieldOf, h1, h2, h3]
  · intro now
    have h : findTimeMatch ((lowerStr "modified in the last 2 days").data)
        = some (2, TUnit.day) := by decide
    have h2 : timeFieldOf ((lowerStr "modified in the last 2 days").data)
        = TimeField.modified := by decide
    simp only [parse_time_constraint, h, h2]
    norm_num [unitSeconds]
  · intro now
    have h : findTimeMatch ((lowerStr "created in the last 1 week").data)
        = some (1, TUnit.week) := by decide
    have h2 : timeFieldOf ((lowerStr "created in the last 1 week").data)
        = TimeField.created := by decide
    simp only [parse_time_constraint, h, h2]
    norm_num [unitSeconds]
  · intro now
    have h : findTimeMatch ((lowerStr "quarterly report").data) = none := by decide
    simp only [parse_time_constraint, h]

/-- Witness for C6 at a concrete query with the `changed` keyword. -/
theorem C6_witness :
    findTimeMatch ((lowerStr "changed in the last 3 weeks").data)
        = some (3, TUnit.week)
      ∧ parse_time_constraint "changed in the last 3 weeks" 7
        = some (TimeField.modified, 7 - 1814400) := by
  have h : findTimeMatch ((lowerStr "changed in the last 3 weeks").data)
      = some (3, TUnit.week) := by decide
  refine ⟨h, ?_⟩
  have h2 := C6_time_parsing.1 "changed in the last 3 weeks" 7 3 TUnit.week h
  rw [h2]
  decide

/-- Claim C7: the size parser tries its ordered phrasings first-match-wins
with kb=1024, mb=1024^2, gb=1024^3, tb=1024^4, allows a fractional
magnitude truncated to integer bytes; "files smaller than 5 mb" gives
`< 5*1024*1024`, "2kb or more" gives `>= 2048`, an earlier phrasing beats a
later one, and an unrecognized query gives no constraint. -/
theorem C7_size_parsing :
    parse_size_constraint "files smaller than 5 mb" = some (SizeOp.lt, 5242880)
    ∧ parse_size_constraint "2kb or more" = some (SizeOp.ge, 2048)
    ∧ parse_size_constraint "equal to 1 kb" = some (SizeOp.eq, 1024)
    ∧ parse_size_constraint "equal to 1 mb" = some (SizeOp.eq, 1048576)
    ∧ parse_size_constraint "equal to 1 gb" = some (SizeOp.eq, 1073741824)
    ∧ parse_size_constraint "equal to 1 tb" = some (SizeOp.eq, 1099511627776)
    ∧ parse_size_constraint "larger than 2.5 kb" = some (SizeOp.gt, 2560)
    ∧ parse_size_constraint "larger than 0.001 kb" = some (SizeOp.gt, 1)
    ∧ parse_size_constraint "bigger than 1 kb or less" = some (SizeOp.gt, 1024)
    ∧ parse_size_constraint "just some words" = none := by decide

/-! ## Helper lemmas for the fuzzy-search, scan and store theorems -/

theorem countOccA_eq_zero (n : List Char) :
    ∀ (h : List Char) (sk : Nat), containsSub h n = false → countOccA h n sk = 0 := by
  intro h
  induction h with
  | nil => intro sk _; rfl
  | cons c t ih =>
    intro sk hc
    rw [containsSub] at hc
    have h1 := Bool.or_eq_false_iff.mp hc
    cases sk with
    | zero => simp [countOccA, h1.1, ih 0 h1.2]
    | succ k => simp [countOccA, ih k h1.2]

theorem pyScore_foldl_aux (sr : List Char) :
    ∀ (terms : List (List Char)) (acc : Nat),
      terms.foldl (fun a t => if containsSub sr t then a + countOcc sr t else a) acc
        = acc + (terms.map (fun t => countOcc sr t)).sum := by
  intro terms
  induction terms with
  | nil => intro acc; simp
  | cons t ts ih =>
    intro acc
    cases hct : containsSub sr t with
    | true =>
      simp [hct, ih]
      omega
    | false =>
      have hz : countOcc sr t = 0 := countOccA_eq_zero t sr 0 hct
      simp [hct, ih, hz]

/-- The guarded scoring loop of the source computes the spec's plain sum of
occurrence counts. -/
theorem pyScore_eq_spec (clean : List Char) (r : FileRecord) :
    pyScore (splitWS clean) r = fuzzySpecScore clean r := by
  unfold pyScore fuzzySpecScore
  simpa using pyScore_foldl_aux (searchableOf r) (splitWS clean) 0

theorem filterMap_if_pair {α : Type} (g : α → Nat) :
    ∀ l : List α,
      (l.filterMap (fun x => if 0 < g x then some (x, g x) else none))
        = (l.filter (fun x => decide (0 < g x))).map (fun x => (x, g x)) := by
  intro l
  induction l with
  | nil => rfl
  | cons x xs ih =>
    by_cases h : 0 < g x <;>
      simp [List.filterMap_cons, List.filter_cons, h, ih]

theorem insDescBy_map {α β : Type} (f : α → β) (k1 : α → Int) (k2 : β → Int)
    (hk : ∀ x, k2 (f x) = k1 x) (x : α) :
    ∀ acc : List α,
      insDescBy k2 (f x) (acc.map f) = (insDescBy k1 x acc).map f := by
  intro acc
  induction acc with
  | nil => rfl
  | cons y ys ih =>
    simp only [List.map_cons, insDescBy, hk]
    by_cases h : k1 y < k1 x <;> simp [h, ih]

theorem sortKeyDesc_foldl_map {α β : Type} (f : α → β) (k1 : α → Int)
    (k2 : β → Int) (hk : ∀ x, k2 (f x) = k1 x) :
    ∀ (l acc : List α),
      (l.map f).foldl (fun a x => insDescBy k2 x a) (acc.map f)
        = (l.foldl (fun a x => insDescBy k1 x a) acc).map f := by
  intro l
  induction l with
  | nil => intro acc; rfl
  | cons x xs ih =>
    intro acc
    simp only [List.map_cons, List.foldl_cons]
    rw [insDescBy_map f k1 k2 hk x acc, ih]

/-- Sorting commutes with mapping when the keys correspond. -/
theorem sortKeyDesc_map {α β : Type} (f : α → β) (k1 : α → Int) (k2 : β → Int)
    (hk : ∀ x, k2 (f x) = k1 x) (l : List α) :
    sortKeyDesc k2 (l.map f) = (sortKeyDesc k1 l).map f := by
  unfold sortKeyDesc
  simpa using sortKeyDesc_foldl_map f k1 k2 hk l []

theorem processFiles_depth (me : List String → Bool) (dp : String)
    (dparts rel : List String) :
    ∀ (files : List FileEntry) (d : FileData),
      d ∈ (processFiles me dp dparts rel files).1 → d.depth = rel.length + 1 := by
  intro files
  induction files with
  | nil => intro d hd; simp [processFiles] at hd
  | cons fe rest ih =>
    intro d hd
    cases hc : should_ignore_parts me (dparts ++ [fe.name]) false with
    | true =>
      simp only [processFiles, hc, if_pos rfl] at hd
      exact ih d hd
    | false =>
      simp only [processFiles, hc, Bool.false_eq_true, if_false,
        List.mem_cons] at hd
      cases hd with
      | inl h => subst h; rfl
      | inr h => exact ih d h

/-- Every record produced below a directory whose segments below the root
are `rel` gets depth at least `rel.length + 1` (the walk only descends,
and the file's own name always counts). -/
theorem walk_depth_all (me : List String → Bool) :
    ∀ N : Nat,
      (∀ (t : FSTree) (dp : String) (dparts rel : List String),
        sizeOf t ≤ N →
        ∀ d ∈ (walkTree me dp dparts rel t).datas, rel.length + 1 ≤ d.depth)
      ∧ (∀ (ds : FSDirList) (dp : String) (dparts rel : List String),
        sizeOf ds ≤ N →
        ∀ d ∈ (walkDirs me dp dparts rel ds).datas, rel.length + 2 ≤ d.depth) := by
  intro N
  induction N with
  | zero =>
    constructor
    · intro t dp dparts rel ht
      cases t with
      | node dirs files => simp at ht
    · intro ds dp dparts rel hs d hd
      cases ds with
      | nil => simp [walkDirs] at hd
      | cons nm t rest => simp at hs
  | succ N ih =>
    constructor
    · intro t dp dparts rel ht d hd
      cases t with
      | node dirs files =>
        simp only [walkTree] at hd
        rcases List.mem_append.mp hd with h1 | h2
        · rw [processFiles_depth me dp dparts rel files d h1]
        · have hsz : sizeOf dirs ≤ N := by simp at ht; omega
          have := (ih).2 dirs dp dparts rel hsz d h2
          omega
    · intro ds dp dparts rel hs d hd
      cases ds with
      | nil => simp [walkDirs] at hd
      | cons nm t rest =>
        have hrest : sizeOf rest ≤ N := by simp at hs; omega
        have ht : sizeOf t ≤ N := by simp at hs; omega
        simp only [walkDirs] at hd
        by_cases h1 : should_ignore_parts me (dparts ++ [nm]) true = true
        · simp only [h1, if_pos rfl] at hd
          exact (ih).2 rest dp dparts rel hrest d hd
        · simp only [h1, if_false] at hd
          by_cases h2 : (strStarts nm "." && !hiddenAllow.contains nm) = true
          · simp only [h2, if_pos rfl] at hd
            exact (ih).2 rest dp dparts rel hrest d hd
          · simp only [h2, if_false] at hd
            rcases List.mem_append.mp hd with h3 | h4
            · have := (ih).1 t (joinSeg dp nm) (dparts ++ [nm]) (rel ++ [nm]) ht d h3
              simp only [List.length_append, List.length_cons,
                List.length_nil] at this
              omega
            · exact (ih).2 rest dp dparts rel hrest d h4

theorem insertData_files (hm : Bool) (now : Int) (st : DBState) (d : FileData) :
    (insertData hm now st d).files
      = st.files.filter (fun f => f.file_path != d.file_path)
          ++ [mkRecord d st.nextId now] := by
  unfold insertData
  split <;> rfl

theorem insertData_mem_path (hm : Bool) (now : Int) (st : DBState)
    (d : FileData) (p : String) :
    p ∈ (insertData hm now st d).files.map (fun r => r.file_path)
      ↔ p = d.file_path ∨ p ∈ st.files.map (fun r => r.file_path) := by
  rw [insertData_files]
  simp only [List.map_append, List.mem_append, List.map_cons, List.map_nil,
    List.mem_singleton, List.mem_map, List.mem_filter, bne_iff_ne, mkRecord]
  constructor
  · rintro (⟨a, ⟨ha, hne⟩, hp⟩ | h)
    · exact Or.inr ⟨a, ha, hp⟩
    · exact Or.inl h
  · rintro (h | ⟨a, ha, hp⟩)
    · exact Or.inr h
    · by_cases hpd : p = d.file_path
      · exact Or.inr hpd
      · exact Or.inl ⟨a, ⟨ha, by rw [hp]; exact hpd⟩, hp⟩

theorem foldl_insert_mem_path (hm : Bool) (now : Int) :
    ∀ (datas : List FileData) (st : DBState) (p : String),
      p ∈ ((datas.foldl (insertData hm now) st).files.map (fun r => r.file_path))
        ↔ p ∈ st.files.map (fun r => r.file_path)
            ∨ p ∈ datas.map (fun d => d.file_path) := by
  intro datas
  induction datas with
  | nil => intro st p; simp
  | cons d ds ih =>
    intro st p
    rw [List.foldl_cons, ih, insertData_mem_path]
    simp only [List.map_cons, List.mem_cons]
    tauto

/-! ## Remaining claim theorems -/

/-- Claim C4, counterexample: a file lying directly inside the scan root is
stored with depth 1, not 0 — `len(Path(file_path).relative_to(root).parts)`
counts the file's own name. -/
theorem C4_counterexample :
    ∃ r ∈ (index_directory false noMarkers "/r" ["/", "r"] c4Tree1 true 0
        emptyDB).2.files,
      r.parent_directory = "/r" ∧ r.depth ≠ 0 := by decide

/-- Claim C4, amended: the stored depth equals the count of path segments
between the scan root and the file inclusive of the file's own name, hence
is at least 1 for every produced record; a file directly inside the root
has depth 1 and one directory down has depth 2. -/
theorem C4_depth_amended :
    (∀ (me : List String → Bool) (dp : String) (dparts : List String)
        (t : FSTree), ∀ d ∈ (walkTree me dp dparts [] t).datas, 1 ≤ d.depth)
    ∧ (index_directory false noMarkers "/r" ["/", "r"] c4Tree2 true 0
        emptyDB).2.files.map (fun r => r.depth) = [1, 2] := by
  constructor
  · intro me dp dparts t d hd
    have h := (walk_depth_all me (sizeOf t)).1 t dp dparts [] le_rfl d hd
    simpa using h
  · decide

/-- Witness for C4: a concrete record produced by the walk of a root with
one direct file, with its depth bound. -/
theorem C4_witness :
    mkData "/r" [] c4Entry ∈ (walkTree noMarkers "/r" ["/", "r"] [] c4Tree1).datas
      ∧ 1 ≤ (mkData "/r" [] c4Entry).depth :=
  ⟨by decide,
   C4_depth_amended.1 noMarkers "/r" ["/", "r"] c4Tree1 (mkData "/r" [] c4Entry)
     (by decide)⟩

/-- Claim C8: each constraint-filtered candidate is scored as the sum over
residual tokens of the token's occurrence count in the lower-cased
`name + " " + parentDirectory`; zero-score records are excluded and the
rest ordered by score descending and truncated, unless the residual text is
empty, in which case the constraint-filtered set is returned ordered by
`modified_time` descending and truncated. -/
theorem C8_fuzzy_ranking :
    ∀ (q : String) (now : Int) (db : List FileRecord) (limit : Nat),
      (fuzzyResidual q now = [] →
        fuzzy_search q now db limit
          = List.take limit
              (sortKeyDesc (fun r => r.modified_time) (fuzzyFilteredSet q now db)))
      ∧ (fuzzyResidual q now ≠ [] →
        fuzzy_search q now db limit
          = List.take limit
              (sortKeyDesc
                (fun r => Int.ofNat (fuzzySpecScore (fuzzyResidual q now) r))
                ((fuzzyFilteredSet q now db).filter
                  (fun r => decide (0 < fuzzySpecScore (fuzzyResidual q now) r))))) := by
  intro q now db limit
  constructor
  · intro h
    have he : (fuzzyResidual q now).isEmpty = true := by
      rw [List.isEmpty_iff]; exact h
    unfold fuzzy_search
    rw [if_pos he]
  · intro h
    have he : (fuzzyResidual q now).isEmpty = false := by
      simp [List.isEmpty_iff, h]
    unfold fuzzy_search
    rw [if_neg (by simp [he])]
    simp only [pyScore_eq_spec]
    rw [filterMap_if_pair (fun r => fuzzySpecScore (fuzzyResidual q now) r)]
    rw [sortKeyDesc_map (fun r => (r, fuzzySpecScore (fuzzyResidual q now) r))
      (fun r => Int.ofNat (fuzzySpecScore (fuzzyResidual q now) r))
      (fun p => Int.ofNat p.2) (fun _ => rfl)]
    rw [← List.map_take, List.map_map]
    have hid : (Prod.fst ∘ fun r : FileRecord =>
        (r, fuzzySpecScore (fuzzyResidual q now) r)) = fun r => r := rfl
    rw [hid, List.map_id']

/-- Witness for C8 at query "report" over a two-record store. -/
theorem C8_witness :
    fuzzyResidual "report" 0 ≠ []
      ∧ fuzzy_search "report" 0 c8DB 10
        = List.take 10
            (sortKeyDesc
              (fun r => Int.ofNat (fuzzySpecScore (fuzzyResidual "report" 0) r))
              ((fuzzyFilteredSet "report" 0 c8DB).filter
                (fun r => decide (0 < fuzzySpecScore (fuzzyResidual "report" 0) r)))) :=
  ⟨by decide, (C8_fuzzy_ranking "report" 0 c8DB 10).2 (by decide)⟩

/-- Claim C9: indexing the same unchanged tree twice, each time with
`clear_old=True`, returns the same `indexed` count both times and leaves
the same set of stored file paths after the second run as after the
first. -/
theorem C9_reindex_idempotent :
    ∀ (hm : Bool) (me : List String → Bool) (rootStr : String)
      (rootParts : List String) (fs : FSTree) (now1 now2 : Int) (st : DBState),
      ((index_directory hm me rootStr rootParts fs true now1 st).1.indexed
        = (index_directory hm me rootStr rootParts fs true now2
            (index_directory hm me rootStr rootParts fs true now1 st).2).1.indexed)
      ∧ ∀ p : String,
          (p ∈ (index_directory hm me rootStr rootParts fs true now2
              (index_directory hm me rootStr rootParts fs true now1 st).2).2.files.map
                (fun r => r.file_path))
          ↔ (p ∈ (index_directory hm me rootStr rootParts fs true now1
              st).2.files.map (fun r => r.file_path)) := by
  intro hm me rootStr rootParts fs now1 now2 st
  have key : ∀ (nowx : Int) (stx : DBState) (p : String),
      (p ∈ (index_directory hm me rootStr rootParts fs true nowx stx).2.files.map
          (fun r => r.file_path))
        ↔ p ∈ (walkTree me rootStr rootParts [] fs).datas.map
            (fun d => d.file_path) := by
    intro nowx stx p
    simp only [index_directory]
    rw [foldl_insert_mem_path]
    simp [clearStores]
  exact ⟨rfl, fun p => by rw [key, key]⟩

/-- Claim C10: the hidden-segment rule fires only for directories — a file
whose own name starts with a dot, matches none of the file-specific rules,
and lies on a path free of ignore-set and egg-info segments is not ignored,
and such a file is indexed (counted in `indexed`) with `is_hidden=true`. -/
theorem C10_hidden_file_indexed :
    (∀ (me : List String → Bool) (parts : List String),
      strStarts (parts.getLastD "") "." = true →
      fileNameBad (parts.map lowerStr) (parts.getLastD "") = false →
      (∀ pp ∈ parts, ignoreDirs.contains (lowerStr pp) = false
        ∧ strEnds (lowerStr pp) ".egg-info" = false) →
      should_ignore_parts me parts false = false)
    ∧ (index_directory false noMarkers "/h" ["/", "h"] c10Tree true 0
        emptyDB).1.indexed = 1
    ∧ (index_directory false noMarkers "/h" ["/", "h"] c10Tree true 0
        emptyDB).2.files.map (fun r => r.is_hidden) = [true] := by
  refine ⟨?_, by decide, by decide⟩
  intro me parts hstart hfile hparts
  have hany : (parts.map lowerStr).any (partBad false) = false := by
    rw [List.any_eq_false]
    intro x hx
    rcases List.mem_map.mp hx with ⟨pp, hpp, rfl⟩
    have h1 : lowerStr pp ∉ ignoreDirs := by
      simpa using (hparts pp hpp).1
    have h2 := (hparts pp hpp).2
    by_cases hdot : (lowerStr pp = "." || lowerStr pp = "..") = true
    · simp [partBad, hdot]
    · simp [partBad, hdot, h1, h2]
  have hfile2 : fileNameBad (parts.map lowerStr) ((parts.getLast?).getD "") = false := by
    simpa [List.getLastD_eq_getLast?] using hfile
  simp [should_ignore_parts, hany, hfile, hfile2]

/-- Witness for C10: a concrete hidden file path, tested even against a
filesystem where every venv marker exists. -/
theorem C10_witness :
    should_ignore_parts (fun _ => true) ["/", "home", ".secret"] false = false :=
  C10_hidden_file_indexed.1 (fun _ => true) ["/", "home", ".secret"]
    (by decide) (by decide) (by decide)

end IFS
